import Mathlib

/-!
Verification of the REACT-NATIVE-LOCATION map screen against its
natural-language specification.

The development has two parts:

* A faithful shallow embedding of the route-handling logic of
  `src/screens/MapScreen.js` (`fetchRoute`, lines 170-196): the request either
  fails (modelled by `none` / a non-ok response / an empty `routes` array) or
  succeeds, in which case the GeoJSON geometry is mapped elementwise into map
  coordinates and the reported distance (meters) is converted to kilometers and
  rounded to two decimals (`toFixed(2)`).  JavaScript numbers are modelled by
  rationals, which is exact for every computation the embedded code performs.

* Models, taken from the specification's own algorithm descriptions, of the two
  components the spec describes as a standalone library — the encoded-polyline
  decoder (spec §4.1) and the Haversine distance engine (spec §4.2).  These
  components do not occur in `src/` (only their intended caller `fetchRoute`
  does, and it uses `geometries=geojson` and the service's own distance
  field instead), so they are modelled from the spec's words, as their doc
  comments state.  Real-number trigonometry models the spec's floating-point
  formulas.
-/

/-! ## Code model: `fetchRoute` from `src/screens/MapScreen.js` -/

/-- A map coordinate as built by `MapScreen.js`: an object with `latitude` and
`longitude` fields (JavaScript numbers, modelled as rationals). -/
structure Coord where
  latitude : ℚ
  longitude : ℚ
deriving DecidableEq, Repr

/-- One entry of the OSRM response's `routes` array, restricted to the fields
`fetchRoute` reads: `geometry.coordinates` (GeoJSON positions, each a
`[longitude, latitude]` pair, modelled as `(longitude, latitude)`) and
`distance` (meters). -/
structure OsrmRoute where
  geometry : List (ℚ × ℚ)
  distance : ℚ
deriving DecidableEq, Repr

/-- The part of the OSRM HTTP response `fetchRoute` inspects: `response.ok`
and the parsed body's `routes` array (a missing `routes` field is modelled by
the empty list, which the code treats identically). -/
structure RouteResponse where
  ok : Bool
  routes : List OsrmRoute
deriving DecidableEq, Repr

/-- The component state touched by `fetchRoute`: the `route`, `distance` and
`errorMsg` state hooks.  The displayed distance string `"<value> km"` is
modelled by its numeric value (an `Option ℚ`, `none` before any value is
set). -/
structure MapScreenState where
  route : List Coord
  distance : Option ℚ
  errorMsg : Option String
deriving DecidableEq, Repr

/-- Decidable equality of `Except` values, componentwise. -/
instance {ε α : Type} [DecidableEq ε] [DecidableEq α] : DecidableEq (Except ε α) := fun a b =>
  match a, b with
  | .error e, .error f =>
    match decEq e f with
    | isTrue h => isTrue (by rw [h])
    | isFalse h => isFalse (by intro hh; apply h; injection hh)
  | .error _, .ok _ => isFalse (by intro hh; exact Except.noConfusion hh)
  | .ok _, .error _ => isFalse (by intro hh; exact Except.noConfusion hh)
  | .ok a, .ok b =>
    match decEq a b with
    | isTrue h => isTrue (by rw [h])
    | isFalse h => isFalse (by intro hh; apply h; injection hh)

/-- JavaScript's `toFixed(2)`: the two-decimal value nearest to `q`, ties
resolved to the larger candidate (ECMA-262 `Number.prototype.toFixed`), i.e.
`round(q·100) / 100` with `round x = ⌊x + 1/2⌋`. -/
def toFixed2 (q : ℚ) : ℚ := (round (q * 100) : ℤ) / 100

/-- Shallow embedding of `fetchRoute` (`src/screens/MapScreen.js` lines
170-196).  `origin` and `dest` are the guard inputs of line 171; `resp` is the
outcome of the `fetch`/`response.json()` pair, with `none` standing for a
thrown network or parse error.  On success the GeoJSON coordinates are mapped
with `latitude := coord[1]`, `longitude := coord[0]` and the distance is
`routes[0].distance / 1000` through `toFixed(2)`; every failing branch is
caught and only sets `errorMsg`. -/
def fetchRoute (origin dest : Option Coord) (resp : Option RouteResponse)
    (st : MapScreenState) : MapScreenState :=
  match origin, dest with
  | none, _ => st
  | some _, none => st
  | some _, some _ =>
    match resp with
    | none => { st with errorMsg := some "Network request failed" }
    | some r =>
      if r.ok then
        match r.routes with
        | [] => { st with errorMsg := some "Rota não disponível" }
        | route0 :: _ =>
          { st with
            route := route0.geometry.map (fun c => { latitude := c.2, longitude := c.1 }),
            distance := some (toFixed2 (route0.distance / 1000)) }
      else { st with errorMsg := some "Erro ao calcular rota" }

/-! ## Spec model: the encoded-polyline decoder (spec §4.1) -/

/-- Modelled from the spec: the error raised on malformed encoded-polyline
input (spec §7) — a truncated chunk sequence / unmatched latitude chunk
(`truncated`) or a character code below the encoding alphabet's offset 63
(`badChar`). -/
inductive DecodeError where
  | truncated : DecodeError
  | badChar : DecodeError
deriving DecidableEq, Repr

/-- Modelled from the spec: a Path is the ordered sequence of decoded
`(latitude, longitude)` pairs (spec §3). -/
abbrev RoutePath := List (ℚ × ℚ)

/-- Modelled from the spec (§4.1 step 2): read one chunk sequence.  Each
character code has 63 subtracted; the low five bits are shifted by five per
group into the accumulator; consumption continues while the continuation bit
(value ≥ 0x20) is set.  Running out of input mid-chunk is the truncated-input
error; a character code below 63 is outside the alphabet. -/
def readUnsigned : List Nat → Nat → Nat → Except DecodeError (Nat × List Nat)
  | [], _, _ => .error .truncated
  | c :: rest, shift, acc =>
    if c < 63 then .error .badChar
    else
      let b := c - 63
      let acc2 := acc + b % 32 * 2 ^ shift
      if 32 ≤ b then readUnsigned rest (shift + 5) acc2
      else .ok (acc2, rest)

/-- Modelled from the spec (§4.1 step 2): zig-zag decoding.  An odd accumulator
denotes the bitwise complement `~(r >>> 1) = -(r >>> 1) - 1`; an even one
denotes `r >>> 1`. -/
def zigzag (r : Nat) : Int :=
  if r % 2 = 1 then -((r / 2 : Nat) : Int) - 1 else ((r / 2 : Nat) : Int)

/-- Modelled from the spec: one signed delta — a chunk sequence followed by
zig-zag decoding. -/
def readVarint (cs : List Nat) : Except DecodeError (Int × List Nat) :=
  match readUnsigned cs 0 0 with
  | .error e => .error e
  | .ok (r, rest) => .ok (zigzag r, rest)

/-- Modelled from the spec (§4.1 steps 2-4): the decoding loop over the
remaining character codes, carrying the integer accumulators `lat` and `lng`.
Each round reads a latitude delta then a longitude delta and emits the updated
accumulator pair; the loop ends exactly when the input is fully consumed.  The
fuel argument is always instantiated with the input length, which suffices
because every round consumes at least one character. -/
def decodeLoop : Nat → List Nat → Int → Int → Except DecodeError (List (Int × Int))
  | _, [], _, _ => .ok []
  | 0, _ :: _, _, _ => .error .truncated
  | fuel + 1, c :: cs, lat, lng =>
    match readVarint (c :: cs) with
    | .error e => .error e
    | .ok (dlat, cs1) =>
      match readVarint cs1 with
      | .error e => .error e
      | .ok (dlng, cs2) =>
        match decodeLoop fuel cs2 (lat + dlat) (lng + dlng) with
        | .error e => .error e
        | .ok rest => .ok ((lat + dlat, lng + dlng) :: rest)

/-- Modelled from the spec: the same traversal as `decodeLoop`, but recording
the raw delta pair consumed at each round instead of the running accumulators.
Used to state that output order equals input traversal order. -/
def parseDeltas : Nat → List Nat → Except DecodeError (List (Int × Int))
  | _, [] => .ok []
  | 0, _ :: _ => .error .truncated
  | fuel + 1, c :: cs =>
    match readVarint (c :: cs) with
    | .error e => .error e
    | .ok (dlat, cs1) =>
      match readVarint cs1 with
      | .error e => .error e
      | .ok (dlng, cs2) =>
        match parseDeltas fuel cs2 with
        | .error e => .error e
        | .ok rest => .ok ((dlat, dlng) :: rest)

/-- Modelled from the spec (§4.1 step 3): a scaled coordinate
`(lat / 1e5, lng / 1e5)`. -/
def scaleCoord (p : Int × Int) : ℚ × ℚ := ((p.1 : ℚ) / 100000, (p.2 : ℚ) / 100000)

/-- The character codes of a string, the decoder's working view of its
input. -/
def stringCodes (s : String) : List Nat := s.data.map Char.toNat

/-- Modelled from the spec (§4.1): `decode(encoded) -> Path`.  The integer
point sequence of `decodeLoop` scaled by 1e5.  Absent from `src/`, which
requests `geometries=geojson` instead; modelled from the spec's algorithm. -/
def decode (s : String) : Except DecodeError RoutePath :=
  match decodeLoop (stringCodes s).length (stringCodes s) 0 0 with
  | .error e => .error e
  | .ok pts => .ok (pts.map scaleCoord)

/-- The delta pairs of a string in traversal order. -/
def parsePairs (s : String) : Except DecodeError (List (Int × Int)) :=
  parseDeltas (stringCodes s).length (stringCodes s)

/-- Prefix-sum accumulation of delta pairs starting from `p` (the integer
points the decoding loop emits). -/
def accumFrom : Int × Int → List (Int × Int) → List (Int × Int)
  | _, [] => []
  | p, d :: ds => (p + d) :: accumFrom (p + d) ds

/-! ## Spec model: GeoDistance (spec §4.2) -/

/-- Modelled from the spec (§3): a Coordinate is a `(latitude, longitude)`
pair in decimal degrees; its floating-point values are modelled as reals. -/
structure Coordinate where
  lat : ℝ
  lon : ℝ

/-- Degrees to radians. -/
noncomputable def toRadians (d : ℝ) : ℝ := d * Real.pi / 180

/-- The two-argument arctangent, as used by the spec's
`c = 2 · atan2(√h, √(1-h))`. -/
noncomputable def atan2 (y x : ℝ) : ℝ :=
  if 0 < x then Real.arctan (y / x)
  else if x < 0 then
    (if 0 ≤ y then Real.arctan (y / x) + Real.pi else Real.arctan (y / x) - Real.pi)
  else
    (if 0 < y then Real.pi / 2 else if y < 0 then -(Real.pi / 2) else 0)

/-- Modelled from the spec (§4.2): the Haversine argument
`h = sin²(dLat/2) + cos(lat_a)·cos(lat_b)·sin²(dLon/2)` in radians. -/
noncomputable def haversineTerm (a b : Coordinate) : ℝ :=
  Real.sin (toRadians (b.lat - a.lat) / 2) ^ 2 +
    Real.cos (toRadians a.lat) * Real.cos (toRadians b.lat) *
      Real.sin (toRadians (b.lon - a.lon) / 2) ^ 2

/-- Modelled from the spec (§4.2): the Earth radius constant, 6378 km. -/
def earthRadiusKm : ℚ := 6378

/-- Rounding to two decimal places on the reals (spec §4.2's final step). -/
noncomputable def round2 (x : ℝ) : ℝ := (round (x * 100) : ℤ) / 100

/-- Modelled from the spec (§4.2): `distance(a, b) -> Distance`, the Haversine
great-circle distance in kilometers with `R = 6378`, rounded to two decimals.
Absent from `src/`, which displays the routing service's own distance field;
modelled from the spec's formula. -/
noncomputable def distance (a b : Coordinate) : ℝ :=
  round2 ((earthRadiusKm : ℝ) *
    (2 * atan2 (Real.sqrt (haversineTerm a b)) (Real.sqrt (1 - haversineTerm a b))))

/-! ## Decoder lemmas -/
lemma readUnsigned_ok_length : ∀ (cs : List Nat) (sh acc r : Nat) (rest : List Nat),
    readUnsigned cs sh acc = .ok (r, rest) → rest.length < cs.length := by
  intro cs
  induction cs with
  | nil => intro sh acc r rest h; simp [readUnsigned] at h
  | cons c t ih =>
    intro sh acc r rest h
    simp only [readUnsigned] at h
    by_cases hc : c < 63
    · rw [if_pos hc] at h; simp at h
    · rw [if_neg hc] at h
      by_cases hb : 32 ≤ c - 63
      · rw [if_pos hb] at h
        exact Nat.lt_trans (ih _ _ _ _ h) (Nat.lt_succ_self _)
      · rw [if_neg hb] at h
        injection h with h1
        injection h1 with _ h2
        subst h2
        exact Nat.lt_succ_self _

lemma readVarint_ok_length (cs : List Nat) (d : Int) (rest : List Nat)
    (h : readVarint cs = .ok (d, rest)) : rest.length < cs.length := by
  unfold readVarint at h
  cases hr : readUnsigned cs 0 0 with
  | error e => rw [hr] at h; exact absurd h (by simp)
  | ok v =>
    obtain ⟨r0, rest0⟩ := v
    rw [hr] at h
    simp only [Except.ok.injEq, Prod.mk.injEq] at h
    obtain ⟨-, h2⟩ := h
    subst h2
    exact readUnsigned_ok_length cs 0 0 r0 _ hr

lemma readUnsigned_append : ∀ (cs ext : List Nat) (sh acc r : Nat) (rest : List Nat),
    readUnsigned cs sh acc = .ok (r, rest) →
    readUnsigned (cs ++ ext) sh acc = .ok (r, rest ++ ext) := by
  intro cs
  induction cs with
  | nil => intro ext sh acc r rest h; simp [readUnsigned] at h
  | cons c t ih =>
    intro ext sh acc r rest h
    simp only [readUnsigned, List.cons_append] at h ⊢
    by_cases hc : c < 63
    · rw [if_pos hc] at h; simp at h
    · rw [if_neg hc] at h ⊢
      by_cases hb : 32 ≤ c - 63
      · rw [if_pos hb] at h ⊢
        exact ih ext _ _ _ _ h
      · rw [if_neg hb] at h ⊢
        injection h with h1
        injection h1 with hl hr2
        subst hl; subst hr2
        rfl

lemma readVarint_append (cs ext : List Nat) (d : Int) (rest : List Nat)
    (h : readVarint cs = .ok (d, rest)) :
    readVarint (cs ++ ext) = .ok (d, rest ++ ext) := by
  unfold readVarint at h ⊢
  cases hr : readUnsigned cs 0 0 with
  | error e => rw [hr] at h; exact absurd h (by simp)
  | ok v =>
    obtain ⟨r0, rest0⟩ := v
    rw [hr] at h
    simp only [Except.ok.injEq, Prod.mk.injEq] at h
    obtain ⟨h1, h2⟩ := h
    subst h1; subst h2
    rw [readUnsigned_append cs ext 0 0 r0 _ hr]

lemma decodeLoop_fuel_eq : ∀ (fuel fuel2 : Nat) (cs : List Nat) (lat lng : Int),
    cs.length ≤ fuel → cs.length ≤ fuel2 →
    decodeLoop fuel cs lat lng = decodeLoop fuel2 cs lat lng := by
  intro fuel
  induction fuel with
  | zero =>
    intro fuel2 cs lat lng h1 _
    have hnil : cs = [] := List.length_eq_zero.mp (Nat.le_zero.mp h1)
    subst hnil
    cases fuel2 <;> rfl
  | succ fuel ih =>
    intro fuel2 cs lat lng h1 h2
    cases cs with
    | nil => cases fuel2 <;> rfl
    | cons c t =>
      cases fuel2 with
      | zero => simp at h2
      | succ fuel2 =>
        cases hv1 : readVarint (c :: t) with
        | error e => simp [decodeLoop, hv1]
        | ok v =>
          obtain ⟨dlat, cs1⟩ := v
          cases hv2 : readVarint cs1 with
          | error e => simp [decodeLoop, hv1, hv2]
          | ok w =>
            obtain ⟨dlng, cs2⟩ := w
            have l1 : cs1.length < (c :: t).length := readVarint_ok_length _ _ _ hv1
            have l2 : cs2.length < cs1.length := readVarint_ok_length _ _ _ hv2
            simp only [List.length_cons] at h1 h2 l1
            simp only [decodeLoop, hv1, hv2]
            rw [ih fuel2 cs2 (lat + dlat) (lng + dlng) (by omega) (by omega)]

lemma decodeLoop_append : ∀ (n : Nat) (cs ext : List Nat) (lat lng : Int)
    (pts : List (Int × Int)), cs.length ≤ n →
    decodeLoop n cs lat lng = .ok pts →
    decodeLoop (cs ++ ext).length (cs ++ ext) lat lng =
      Except.map (fun rest => pts ++ rest)
        (decodeLoop ext.length ext (pts.getLastD (lat, lng)).1 (pts.getLastD (lat, lng)).2) := by
  intro n
  induction n with
  | zero =>
    intro cs ext lat lng pts hlen h
    have hnil : cs = [] := List.length_eq_zero.mp (Nat.le_zero.mp hlen)
    subst hnil
    simp only [decodeLoop, Except.ok.injEq] at h
    subst h
    simp only [List.nil_append, List.getLastD_nil]
    cases hx : decodeLoop ext.length ext lat lng <;> simp [Except.map]
  | succ n ih =>
    intro cs ext lat lng pts hlen h
    cases cs with
    | nil =>
      simp only [decodeLoop, Except.ok.injEq] at h
      subst h
      simp only [List.nil_append, List.getLastD_nil]
      cases hx : decodeLoop ext.length ext lat lng <;> simp [Except.map]
    | cons c t =>
      cases hv1 : readVarint (c :: t) with
      | error e => simp only [decodeLoop, hv1] at h; exact Except.noConfusion h
      | ok v =>
        obtain ⟨dlat, cs1⟩ := v
        cases hv2 : readVarint cs1 with
        | error e => simp only [decodeLoop, hv1, hv2] at h; exact Except.noConfusion h
        | ok w =>
          obtain ⟨dlng, cs2⟩ := w
          cases hrec : decodeLoop n cs2 (lat + dlat) (lng + dlng) with
          | error e => simp only [decodeLoop, hv1, hv2, hrec] at h; exact Except.noConfusion h
          | ok rest0 =>
            simp only [decodeLoop, hv1, hv2, hrec, Except.ok.injEq] at h
            subst h
            have l1 : cs1.length < (c :: t).length := readVarint_ok_length _ _ _ hv1
            have l2 : cs2.length < cs1.length := readVarint_ok_length _ _ _ hv2
            simp only [List.length_cons] at hlen l1
            have hv1a := readVarint_append (c :: t) ext dlat cs1 hv1
            have hv2a := readVarint_append cs1 ext dlng cs2 hv2
            simp only [List.cons_append] at hv1a
            have ihx := ih cs2 ext (lat + dlat) (lng + dlng) rest0 (by omega) hrec
            have hfuel : decodeLoop ((t ++ ext).length) (cs2 ++ ext) (lat + dlat) (lng + dlng) =
                decodeLoop (cs2 ++ ext).length (cs2 ++ ext) (lat + dlat) (lng + dlng) := by
              apply decodeLoop_fuel_eq
              · simp only [List.length_append]; omega
              · exact le_refl _
            simp only [List.cons_append, List.length_cons, decodeLoop, List.append_eq, hv1a, hv2a]
            rw [hfuel, ihx, List.getLastD_cons]
            cases hy : decodeLoop ext.length ext ((rest0.getLastD (lat + dlat, lng + dlng)).1)
                ((rest0.getLastD (lat + dlat, lng + dlng)).2) <;>
              simp [Except.map, hy]

lemma decode_eq (s : String) :
    decode s = Except.map (List.map scaleCoord)
      (decodeLoop (stringCodes s).length (stringCodes s) 0 0) := by
  cases h : decodeLoop (stringCodes s).length (stringCodes s) 0 0 <;>
    simp [decode, h, Except.map]

lemma stringCodes_append (s t : String) :
    stringCodes (s ++ t) = stringCodes s ++ stringCodes t := by
  simp [stringCodes, String.data_append]

lemma decode_append_ok (s t : String) (p : RoutePath) (h : decode s = .ok p) :
    ∃ pts : List (Int × Int),
      decodeLoop (stringCodes (s ++ t)).length (stringCodes (s ++ t)) 0 0 =
        Except.map (fun rest => pts ++ rest)
          (decodeLoop (stringCodes t).length (stringCodes t)
            (pts.getLastD (0, 0)).1 (pts.getLastD (0, 0)).2) := by
  rw [decode_eq s] at h
  cases hd : decodeLoop (stringCodes s).length (stringCodes s) 0 0 with
  | error e => rw [hd] at h; exact absurd h (by simp [Except.map])
  | ok pts =>
    refine ⟨pts, ?_⟩
    rw [stringCodes_append]
    exact decodeLoop_append (stringCodes s).length (stringCodes s) (stringCodes t)
      0 0 pts (le_refl _) hd

lemma getLastD_irrel : ∀ (l : List Nat) (a b : Nat), l ≠ [] → l.getLastD a = l.getLastD b := by
  intro l a b h
  cases l with
  | nil => exact absurd rfl h
  | cons x xs => rw [List.getLastD_cons, List.getLastD_cons]

lemma readUnsigned_contLast : ∀ (cs : List Nat) (sh acc : Nat), cs ≠ [] →
    (∀ c ∈ cs, 63 ≤ c) → 32 ≤ cs.getLastD 0 - 63 →
    readUnsigned cs sh acc = .error .truncated ∨
      ∃ v rest, readUnsigned cs sh acc = .ok (v, rest) ∧ rest ≠ [] ∧
        rest.length < cs.length ∧ (∀ c ∈ rest, 63 ≤ c) ∧ 32 ≤ rest.getLastD 0 - 63 := by
  intro cs
  induction cs with
  | nil => intro sh acc h _ _; exact absurd rfl h
  | cons c t ih =>
    intro sh acc _ hall hlast
    have hc : 63 ≤ c := hall c (List.mem_cons_self c t)
    simp only [readUnsigned]
    rw [if_neg (by omega)]
    by_cases hb : 32 ≤ c - 63
    · rw [if_pos hb]
      by_cases htne : t = []
      · subst htne; left; rfl
      · have hallt : ∀ d ∈ t, 63 ≤ d := fun d hd => hall d (List.mem_cons_of_mem c hd)
        have hlastt : 32 ≤ t.getLastD 0 - 63 := by
          rw [List.getLastD_cons] at hlast
          rw [getLastD_irrel t 0 c htne]
          exact hlast
        rcases ih (sh + 5) (acc + (c - 63) % 32 * 2 ^ sh) htne hallt hlastt with
          h | ⟨v, rest, h, hne2, hlen2, hall2, hlast2⟩
        · left; exact h
        · right
          exact ⟨v, rest, h, hne2, Nat.lt_trans hlen2 (Nat.lt_succ_self _), hall2, hlast2⟩
    · rw [if_neg hb]
      have htne : t ≠ [] := by
        intro ht
        subst ht
        simp [List.getLastD_cons, List.getLastD_nil] at hlast
        omega
      right
      refine ⟨acc + (c - 63) % 32 * 2 ^ sh, t, rfl, htne, Nat.lt_succ_self _,
        fun d hd => hall d (List.mem_cons_of_mem c hd), ?_⟩
      rw [List.getLastD_cons] at hlast
      rw [getLastD_irrel t 0 c htne]
      exact hlast

lemma readVarint_contLast (cs : List Nat) (h1 : cs ≠ []) (h2 : ∀ c ∈ cs, 63 ≤ c)
    (h3 : 32 ≤ cs.getLastD 0 - 63) :
    readVarint cs = .error .truncated ∨
      ∃ d rest, readVarint cs = .ok (d, rest) ∧ rest ≠ [] ∧ rest.length < cs.length ∧
        (∀ c ∈ rest, 63 ≤ c) ∧ 32 ≤ rest.getLastD 0 - 63 := by
  rcases readUnsigned_contLast cs 0 0 h1 h2 h3 with h | ⟨v, rest, h, hne, hlen, hall, hlast⟩
  · left; unfold readVarint; rw [h]
  · right
    exact ⟨zigzag v, rest, by unfold readVarint; rw [h], hne, hlen, hall, hlast⟩

lemma decodeLoop_contLast : ∀ (fuel : Nat) (cs : List Nat) (lat lng : Int), cs ≠ [] →
    (∀ c ∈ cs, 63 ≤ c) → 32 ≤ cs.getLastD 0 - 63 →
    decodeLoop fuel cs lat lng = .error .truncated := by
  intro fuel
  induction fuel with
  | zero =>
    intro cs lat lng hne _ _
    cases cs with
    | nil => exact absurd rfl hne
    | cons c t => rfl
  | succ fuel ih =>
    intro cs lat lng hne hall hlast
    cases cs with
    | nil => exact absurd rfl hne
    | cons c t =>
      rcases readVarint_contLast (c :: t) hne hall hlast with
        h1 | ⟨d1, cs1, h1, hne1, _, hall1, hlast1⟩
      · simp [decodeLoop, h1]
      · rcases readVarint_contLast cs1 hne1 hall1 hlast1 with
          h2 | ⟨d2, cs2, h2, hne2, _, hall2, hlast2⟩
        · simp [decodeLoop, h1, h2]
        · simp [decodeLoop, h1, h2, ih cs2 (lat + d1) (lng + d2) hne2 hall2 hlast2]

lemma readUnsigned_hasBad : ∀ (cs : List Nat) (sh acc : Nat), (∃ c ∈ cs, c < 63) →
    readUnsigned cs sh acc = .error .badChar ∨
      ∃ v rest, readUnsigned cs sh acc = .ok (v, rest) ∧ (∃ c ∈ rest, c < 63) ∧
        rest.length < cs.length := by
  intro cs
  induction cs with
  | nil => intro sh acc h; simp at h
  | cons c t ih =>
    intro sh acc hbad
    simp only [readUnsigned]
    by_cases hc : c < 63
    · rw [if_pos hc]; left; rfl
    · rw [if_neg hc]
      have hbt : ∃ x ∈ t, x < 63 := by
        rcases hbad with ⟨x, hx, hlt⟩
        rcases List.mem_cons.mp hx with rfl | hxt
        · exact absurd hlt hc
        · exact ⟨x, hxt, hlt⟩
      by_cases hb : 32 ≤ c - 63
      · rw [if_pos hb]
        rcases ih (sh + 5) (acc + (c - 63) % 32 * 2 ^ sh) hbt with
          h | ⟨v, rest, h, hb2, hlen⟩
        · left; exact h
        · right; exact ⟨v, rest, h, hb2, Nat.lt_trans hlen (Nat.lt_succ_self _)⟩
      · rw [if_neg hb]
        right
        exact ⟨acc + (c - 63) % 32 * 2 ^ sh, t, rfl, hbt, Nat.lt_succ_self _⟩

lemma readVarint_hasBad (cs : List Nat) (h : ∃ c ∈ cs, c < 63) :
    readVarint cs = .error .badChar ∨
      ∃ d rest, readVarint cs = .ok (d, rest) ∧ (∃ c ∈ rest, c < 63) ∧
        rest.length < cs.length := by
  rcases readUnsigned_hasBad cs 0 0 h with h1 | ⟨v, rest, h1, hb, hlen⟩
  · left; unfold readVarint; rw [h1]
  · right
    exact ⟨zigzag v, rest, by unfold readVarint; rw [h1], hb, hlen⟩

lemma decodeLoop_hasBad : ∀ (fuel : Nat) (cs : List Nat) (lat lng : Int),
    (∃ c ∈ cs, c < 63) → ∃ e, decodeLoop fuel cs lat lng = .error e := by
  intro fuel
  induction fuel with
  | zero =>
    intro cs lat lng hbad
    cases cs with
    | nil => simp at hbad
    | cons c t => exact ⟨.truncated, rfl⟩
  | succ fuel ih =>
    intro cs lat lng hbad
    cases cs with
    | nil => simp at hbad
    | cons c t =>
      rcases readVarint_hasBad (c :: t) hbad with h1 | ⟨d1, cs1, h1, hbad1, _⟩
      · exact ⟨.badChar, by simp [decodeLoop, h1]⟩
      · rcases readVarint_hasBad cs1 hbad1 with h2 | ⟨d2, cs2, h2, hbad2, _⟩
        · exact ⟨.badChar, by simp [decodeLoop, h1, h2]⟩
        · obtain ⟨e, he⟩ := ih cs2 (lat + d1) (lng + d2) hbad2
          exact ⟨e, by simp [decodeLoop, h1, h2, he]⟩

/-- C3: on every malformed encoded-polyline input the decoder fails with a
`DecodeError` and returns no partial path.  The spec's truncated example
fails with `truncated`; every input over the encoding alphabet whose final
character still has the continuation bit set — the spec's criterion for a
string ending mid-chunk, wherever in a latitude or longitude chunk the cut
falls — fails with `truncated`; every decodable string extended by exactly
one complete chunk sequence (a latitude chunk with no matching longitude
chunk) fails with `truncated`; and an input with a character code below the
alphabet offset fails with a `DecodeError` as well.  The `Except` result
carries no path alongside an error. -/
theorem decode_malformed :
    decode "_p~iF~ps|U_ulLnnqC_mqNvxq" = .error .truncated ∧
    (∀ s : String, stringCodes s ≠ [] → (∀ c ∈ stringCodes s, 63 ≤ c) →
      32 ≤ (stringCodes s).getLastD 0 - 63 → decode s = .error .truncated) ∧
    (∀ (s t : String) (p : RoutePath) (d : Int), decode s = .ok p →
      readVarint (stringCodes t) = .ok (d, []) →
      decode (s ++ t) = .error .truncated) ∧
    (∀ s : String, (∃ c ∈ stringCodes s, c < 63) → ∃ e, decode s = .error e) := by
  refine ⟨?_, ?_, ?_, ?_⟩
  · simp only [decode]
    rw [show decodeLoop (stringCodes "_p~iF~ps|U_ulLnnqC_mqNvxq").length
        (stringCodes "_p~iF~ps|U_ulLnnqC_mqNvxq") 0 0 = .error .truncated from by decide]
  · intro s hne hall hlast
    rw [decode_eq, decodeLoop_contLast _ _ 0 0 hne hall hlast]
    rfl
  · intro s t p d hs hvar
    obtain ⟨pts, hpts⟩ := decode_append_ok s t p hs
    rw [decode_eq (s ++ t), hpts]
    cases hct : stringCodes t with
    | nil =>
      rw [hct] at hvar
      simp [readVarint, readUnsigned] at hvar
    | cons c0 ct =>
      have htail : decodeLoop (c0 :: ct).length (c0 :: ct)
          (pts.getLastD (0, 0)).1 (pts.getLastD (0, 0)).2 = .error .truncated := by
        rw [hct] at hvar
        simp only [List.length_cons, decodeLoop, hvar]
        rfl
      rw [htail]
      rfl
  · intro s hbad
    obtain ⟨e, he⟩ := decodeLoop_hasBad (stringCodes s).length (stringCodes s) 0 0 hbad
    refine ⟨e, ?_⟩
    rw [decode_eq, he]
    rfl

theorem decode_malformed_witness :
    decode "_p~iF~" = .error .truncated ∧
    decode ("" ++ "_p~iF") = .error .truncated ∧
    (∃ e, decode "+" = .error e) :=
  ⟨decode_malformed.2.1 "_p~iF~" (by decide) (by decide) (by decide),
    decode_malformed.2.2.1 "" "_p~iF" [] 3850000 rfl (by decide),
    decode_malformed.2.2.2 "+" (by decide)⟩

lemma accumFrom_length : ∀ (ds : List (Int × Int)) (p : Int × Int),
    (accumFrom p ds).length = ds.length := by
  intro ds
  induction ds with
  | nil => intro p; rfl
  | cons d ds ih => intro p; simp [accumFrom, ih]

lemma accumFrom_get : ∀ (ds : List (Int × Int)) (p : Int × Int) (i : Nat), i < ds.length →
    (accumFrom p ds)[i]? = some (p + (ds.take (i + 1)).sum) := by
  intro ds
  induction ds with
  | nil => intro p i h; simp at h
  | cons d ds ih =>
    intro p i h
    cases i with
    | zero => simp [accumFrom]
    | succ i =>
      simp only [accumFrom, List.getElem?_cons_succ]
      rw [ih (p + d) i (by simpa using h)]
      congr 1
      rw [List.take_succ_cons, List.sum_cons, add_assoc]

lemma decodeLoop_eq_parseDeltas : ∀ (fuel : Nat) (cs : List Nat) (lat lng : Int),
    decodeLoop fuel cs lat lng =
      Except.map (accumFrom (lat, lng)) (parseDeltas fuel cs) := by
  intro fuel
  induction fuel with
  | zero =>
    intro cs lat lng
    cases cs <;> simp [decodeLoop, parseDeltas, Except.map, accumFrom]
  | succ fuel ih =>
    intro cs lat lng
    cases cs with
    | nil => simp [decodeLoop, parseDeltas, Except.map, accumFrom]
    | cons c t =>
      cases hv1 : readVarint (c :: t) with
      | error e => simp [decodeLoop, parseDeltas, hv1, Except.map]
      | ok v =>
        obtain ⟨dlat, cs1⟩ := v
        cases hv2 : readVarint cs1 with
        | error e => simp [decodeLoop, parseDeltas, hv1, hv2, Except.map]
        | ok w =>
          obtain ⟨dlng, cs2⟩ := w
          simp only [decodeLoop, parseDeltas, hv1, hv2]
          rw [ih cs2 (lat + dlat) (lng + dlng)]
          cases hp : parseDeltas fuel cs2 with
          | error e => simp [Except.map]
          | ok rest => simp [Except.map, accumFrom, Prod.mk_add_mk]

/-- C8: output order equals input traversal order: whenever decoding
succeeds, the delta pairs parse in traversal order and the i-th emitted
coordinate is the scaled prefix sum of the first i+1 delta pairs consumed —
the i-th point comes from the i-th lat/lng pair. -/
theorem decode_traversal_order (s : String) (p : RoutePath) (h : decode s = .ok p) :
    ∃ ds : List (Int × Int), parsePairs s = .ok ds ∧ p.length = ds.length ∧
      ∀ i : Nat, i < p.length → p[i]? = some (scaleCoord ((ds.take (i + 1)).sum)) := by
  rw [decode_eq, decodeLoop_eq_parseDeltas] at h
  cases hp : parseDeltas (stringCodes s).length (stringCodes s) with
  | error e => rw [hp] at h; exact absurd h (by simp [Except.map])
  | ok ds =>
    rw [hp] at h
    simp only [Except.map, Except.ok.injEq] at h
    refine ⟨ds, hp, ?_, ?_⟩
    · rw [← h, List.length_map, accumFrom_length]
    · intro i hi
      rw [← h] at hi ⊢
      simp only [List.length_map, accumFrom_length] at hi
      rw [List.getElem?_map, accumFrom_get ds (0, 0) i hi,
        show ((0, 0) : Int × Int) = 0 from rfl, zero_add]
      rfl

/-! ## GeoDistance lemmas -/

lemma haversineTerm_self (a : Coordinate) : haversineTerm a a = 0 := by
  simp [haversineTerm, toRadians]

lemma distance_self (a : Coordinate) : distance a a = 0 := by
  rw [distance, haversineTerm_self, Real.sqrt_zero]
  norm_num [atan2, Real.arctan_zero, round2]

lemma haversineTerm_comm (a b : Coordinate) : haversineTerm a b = haversineTerm b a := by
  have key : ∀ x : ℝ, Real.sin (toRadians (-x) / 2) ^ 2 = Real.sin (toRadians x / 2) ^ 2 := by
    intro x
    have hx : toRadians (-x) = -toRadians x := by unfold toRadians; ring
    rw [hx, neg_div, Real.sin_neg, neg_sq]
  unfold haversineTerm
  rw [show a.lat - b.lat = -(b.lat - a.lat) from by ring,
    show a.lon - b.lon = -(b.lon - a.lon) from by ring,
    key (b.lat - a.lat), key (b.lon - a.lon)]
  ring

/-! ## fetchRoute lemmas -/

lemma fetchRoute_success_route (o d : Coord) (resp : RouteResponse) (r : OsrmRoute)
    (rs : List OsrmRoute) (st : MapScreenState) (hok : resp.ok = true)
    (hroutes : resp.routes = r :: rs) :
    (fetchRoute (some o) (some d) (some resp) st).route =
      r.geometry.map (fun c => { latitude := c.2, longitude := c.1 }) := by
  simp [fetchRoute, hok, hroutes]

/-- Evaluation of the decoder on the canonical test vector (shared by the
claim theorems below). -/
lemma decode_vector_eval :
    decode "_p~iF~ps|U_ulLnnqC_mqNvxq`@" =
      .ok [((38.5 : ℚ), (-120.2 : ℚ)), ((40.7 : ℚ), (-120.95 : ℚ)),
        ((43.252 : ℚ), (-126.453 : ℚ))] := by
  simp only [decode]
  rw [show decodeLoop (stringCodes "_p~iF~ps|U_ulLnnqC_mqNvxq`@").length
      (stringCodes "_p~iF~ps|U_ulLnnqC_mqNvxq`@") 0 0 =
      .ok [(3850000, -12020000), (4070000, -12095000), (4325200, -12645300)] from by decide]
  simp only [List.map, scaleCoord]
  norm_num

/-! ## Claim theorems -/

/-- C1: decoding the canonical Google polyline test vector yields exactly
the three coordinates (38.5, -120.2), (40.7, -120.95), (43.252, -126.453),
in that order. -/
theorem decode_test_vector :
    decode "_p~iF~ps|U_ulLnnqC_mqNvxq`@" =
      .ok [((38.5 : ℚ), (-120.2 : ℚ)), ((40.7 : ℚ), (-120.95 : ℚ)),
        ((43.252 : ℚ), (-126.453 : ℚ))] :=
  decode_vector_eval

/-- C2 counterexample: the distance `fetchRoute` stores is not the Haversine
distance of its endpoints — with origin and destination both (0, 0) and a
response reporting 5000 m, the code stores 5 km while the spec's Haversine
formula gives exactly 0 for coincident points. -/
theorem fetchRoute_distance_not_haversine :
    (fetchRoute (some ⟨0, 0⟩) (some ⟨0, 0⟩) (some ⟨true, [⟨[], 5000⟩]⟩)
        ⟨[], none, none⟩).distance = some 5 ∧
      distance ⟨0, 0⟩ ⟨0, 0⟩ = 0 ∧ (5 : ℝ) ≠ (0 : ℝ) := by
  refine ⟨?_, distance_self _, by norm_num⟩
  simp only [fetchRoute]
  norm_num [toFixed2, round_eq]

/-- C2 amended: the distance returned to the caller is the routing service's
reported distance in meters divided by 1000 and rounded to exactly two
decimal places (`toFixed(2)`), not a Haversine computation. -/
theorem fetchRoute_distance_formula (o d : Coord) (resp : RouteResponse) (r : OsrmRoute)
    (rs : List OsrmRoute) (st : MapScreenState) (hok : resp.ok = true)
    (hroutes : resp.routes = r :: rs) :
    (fetchRoute (some o) (some d) (some resp) st).distance =
        some (toFixed2 (r.distance / 1000)) ∧
      ∃ n : ℤ, toFixed2 (r.distance / 1000) = (n : ℚ) / 100 := by
  refine ⟨?_, ⟨round (r.distance / 1000 * 100), rfl⟩⟩
  simp [fetchRoute, hok, hroutes]

theorem fetchRoute_distance_formula_witness :
    (fetchRoute (some ⟨0, 0⟩) (some ⟨1, 1⟩) (some ⟨true, [⟨[], 357045⟩]⟩)
        ⟨[], none, none⟩).distance = some (toFixed2 (357045 / 1000)) ∧
      ∃ n : ℤ, toFixed2 ((357045 : ℚ) / 1000) = (n : ℚ) / 100 :=
  fetchRoute_distance_formula ⟨0, 0⟩ ⟨1, 1⟩ ⟨true, [⟨[], 357045⟩]⟩ ⟨[], 357045⟩ []
    ⟨[], none, none⟩ rfl rfl

/-- C4: decoding the empty string yields the empty path and raises no
error. -/
theorem decode_empty : decode "" = .ok [] := rfl

/-- C5: the spec's Haversine distance is symmetric in its two coordinate
arguments. -/
theorem distance_comm : ∀ a b : Coordinate, distance a b = distance b a := by
  intro a b
  unfold distance
  rw [haversineTerm_comm]

/-- C6: the spec's Haversine distance of a coordinate to itself is exactly
zero, in particular at (0, 0). -/
theorem distance_self_zero :
    (∀ a : Coordinate, distance a a = 0) ∧ distance ⟨0, 0⟩ ⟨0, 0⟩ = 0 :=
  ⟨distance_self, distance_self _⟩

/-- C7: decoding is deterministic and pure: it is a function of the input
characters alone, so two calls on identical input yield identical output and
no state survives between calls (the model is a pure function by
construction). -/
theorem decode_deterministic (s t : String) (h : s.data = t.data) : decode s = decode t := by
  simp only [decode, stringCodes, h]

theorem decode_deterministic_witness :
    decode "_p~iF~ps|U_ulLnnqC_mqNvxq`@" = decode "_p~iF~ps|U_ulLnnqC_mqNvxq`@" :=
  decode_deterministic _ _ rfl

theorem decode_traversal_order_witness :
    ∃ ds : List (Int × Int), parsePairs "_p~iF~ps|U_ulLnnqC_mqNvxq`@" = .ok ds ∧
      ([((38.5 : ℚ), (-120.2 : ℚ)), ((40.7 : ℚ), (-120.95 : ℚ)),
        ((43.252 : ℚ), (-126.453 : ℚ))] : RoutePath).length = ds.length ∧
      ∀ i : Nat, i < ([((38.5 : ℚ), (-120.2 : ℚ)), ((40.7 : ℚ), (-120.95 : ℚ)),
        ((43.252 : ℚ), (-126.453 : ℚ))] : RoutePath).length →
        ([((38.5 : ℚ), (-120.2 : ℚ)), ((40.7 : ℚ), (-120.95 : ℚ)),
          ((43.252 : ℚ), (-126.453 : ℚ))] : RoutePath)[i]? =
          some (scaleCoord ((ds.take (i + 1)).sum)) :=
  decode_traversal_order "_p~iF~ps|U_ulLnnqC_mqNvxq`@" _ decode_vector_eval

/-- C9: on every successful routing response the stored route is the
elementwise image of the response's GeoJSON geometry, the i-th route point
being (latitude = coordinates i 1, longitude = coordinates i 0); the
embedding contains no encoded-polyline decoding on this path. -/
theorem fetchRoute_route_geojson (o d : Coord) (resp : RouteResponse) (r : OsrmRoute)
    (rs : List OsrmRoute) (st : MapScreenState) (hok : resp.ok = true)
    (hroutes : resp.routes = r :: rs) :
    (fetchRoute (some o) (some d) (some resp) st).route =
        r.geometry.map (fun c => { latitude := c.2, longitude := c.1 }) ∧
      ∀ (i : Nat) (c : ℚ × ℚ), r.geometry[i]? = some c →
        ((fetchRoute (some o) (some d) (some resp) st).route)[i]? =
          some (Coord.mk c.2 c.1) := by
  have hroute := fetchRoute_success_route o d resp r rs st hok hroutes
  refine ⟨hroute, ?_⟩
  intro i c hc
  rw [hroute, List.getElem?_map, hc]
  rfl

theorem fetchRoute_route_geojson_witness :
    (fetchRoute (some ⟨0, 0⟩) (some ⟨1, 1⟩)
          (some ⟨true, [⟨[(10, 20), (30, 40)], 5000⟩]⟩) ⟨[], none, none⟩).route =
        [(10, 20), (30, 40)].map (fun c => { latitude := c.2, longitude := c.1 }) ∧
      ∀ (i : Nat) (c : ℚ × ℚ), [((10 : ℚ), (20 : ℚ)), (30, 40)][i]? = some c →
        ((fetchRoute (some ⟨0, 0⟩) (some ⟨1, 1⟩)
            (some ⟨true, [⟨[(10, 20), (30, 40)], 5000⟩]⟩) ⟨[], none, none⟩).route)[i]? =
          some (Coord.mk c.2 c.1) :=
  fetchRoute_route_geojson ⟨0, 0⟩ ⟨1, 1⟩ ⟨true, [⟨[(10, 20), (30, 40)], 5000⟩]⟩
    ⟨[(10, 20), (30, 40)], 5000⟩ [] ⟨[], none, none⟩ rfl rfl

/-- C10: every failing path of `fetchRoute` — null origin or destination, a
thrown fetch, a non-ok response, or a missing or empty `routes` array —
leaves the stored route and distance unchanged. -/
theorem fetchRoute_failure_preserves (origin dest : Option Coord)
    (resp : Option RouteResponse) (st : MapScreenState)
    (h : origin = none ∨ dest = none ∨ resp = none ∨
      ∃ r, resp = some r ∧ (r.ok = false ∨ r.routes = [])) :
    (fetchRoute origin dest resp st).route = st.route ∧
      (fetchRoute origin dest resp st).distance = st.distance := by
  rcases h with h | h | h | ⟨r, hr, hcase⟩
  · subst h; simp [fetchRoute]
  · subst h; cases origin <;> simp [fetchRoute]
  · subst h
    cases origin with
    | none => simp [fetchRoute]
    | some o => cases dest <;> simp [fetchRoute]
  · subst hr
    cases origin with
    | none => simp [fetchRoute]
    | some o =>
      cases dest with
      | none => simp [fetchRoute]
      | some d =>
        rcases hcase with hok | hroutes
        · simp [fetchRoute, hok]
        · cases hb : r.ok <;> simp [fetchRoute, hroutes, hb]

theorem fetchRoute_failure_preserves_witness :
    (fetchRoute none none none ⟨[], some 5, none⟩).route = ([] : List Coord) ∧
      (fetchRoute none none none ⟨[], some 5, none⟩).distance = some 5 :=
  fetchRoute_failure_preserves none none none ⟨[], some 5, none⟩ (Or.inl rfl)
